import Mathlib

/-!
Verification of the playback scheduling engine of the Cynthia MIDI player
(`Software/For MIDI Files Playback/cynthia_file_player.py`).

The Python classes `MIDIPlayer` (flattener, transport state machine, pacing
loop, volume transform) are shallowly embedded below.  Python floats are
modelled by `ℚ` (exact arithmetic), Python ints by `ℕ`/`ℤ`, raw MIDI byte
strings by `List ℕ`.
-/

namespace Cynthia

/-- A parsed MIDI message as the flattener sees it (mirrors the mido message
objects consumed by `MIDIPlayer._flatten`): a `set_tempo` meta event carrying
a tempo in µs/beat, any other meta event, or a non-meta (channel voice/mode)
message with its raw byte encoding `msg.bytes()`. -/
inductive Msg
  | setTempo (tempo : ℕ)
  | metaOther
  | voice (raw : List ℕ)
deriving DecidableEq

/-- Transport states of `PlayerState` in the source (`STOPPED`, `PLAYING`,
`PAUSED`). -/
inductive PState
  | stopped
  | playing
  | paused
deriving DecidableEq

/-- Failure of the external file parser (`mido.MidiFile`), which the spec
groups under the abstract name `LoadError`.  The parser itself is out of
scope; only the fact that `load` parses before mutating any state matters. -/
inductive LoadError
  | malformed
  | unreadable
deriving DecidableEq

/-- The mutable state of a `MIDIPlayer` object: `_state`, `_stop_flag`,
`_pause_evt`, `_messages`, `_duration`, `_pos`, `_seek_to`, `_volume`. -/
structure Player where
  state : PState
  stopFlag : Bool
  pauseEvt : Bool
  messages : List (ℚ × List ℕ)
  duration : ℚ
  pos : ℚ
  seekTo : Option ℚ
  volume : ℚ
deriving DecidableEq

/-- Python `int(...)` applied to a rational: truncation toward zero. -/
def pyint (q : ℚ) : ℤ :=
  if 0 ≤ q then ⌊q⌋ else ⌈q⌉

/-- `MIDIPlayer._apply_volume` (lines 332–337): if the raw bytes have length
at least 3, status nibble `0xB0` (control change) and controller number 7
(channel volume), replace the value byte by `int(raw[2] * volume)` clamped to
`[0,127]` and return just those three bytes; otherwise return the bytes
unchanged. -/
def apply_volume (volume : ℚ) : List ℕ → List ℕ
  | b0 :: b1 :: b2 :: rest =>
    if b0 &&& 0xF0 == 0xB0 && b1 == 7 then
      [b0, b1, (max 0 (min 127 (pyint ((b2 : ℚ) * volume)))).toNat]
    else
      b0 :: b1 :: b2 :: rest
  | raw => raw

/-- Modelled from the spec: the Volume Transform as §4.2 words it, with the
value byte replaced by `round(original_value * gain)` (rounding to the
nearest integer) clamped to `[0,127]`.  Used only to compare the spec's
`round` against the source's `int` truncation. -/
def apply_volume_specRound (gain : ℚ) : List ℕ → List ℕ
  | b0 :: b1 :: b2 :: rest =>
    if b0 &&& 0xF0 == 0xB0 && b1 == 7 then
      [b0, b1, (max 0 (min 127 (round ((b2 : ℚ) * gain)))).toNat]
    else
      b0 :: b1 :: b2 :: rest
  | raw => raw

/-- `MIDIPlayer.stop` (lines 165–171): set the stop flag, release the pause
gate, set state to `STOPPED`, reset position to 0 (the all-sound-off sent to
the sink is not part of the player state). -/
def stop (p : Player) : Player :=
  { p with stopFlag := true, pauseEvt := true, state := .stopped, pos := 0 }

/-- `MIDIPlayer.pause` (lines 158–163): only when currently `PLAYING`, move
to `PAUSED` and clear the pause gate; otherwise do nothing. -/
def pause (p : Player) : Player :=
  if p.state = .playing then
    { p with state := .paused, pauseEvt := false }
  else
    p

/-- `MIDIPlayer.seek` (lines 176–178): record `max(0, min(seconds, duration))`
as the pending seek target. -/
def seek (p : Player) (seconds : ℚ) : Player :=
  { p with seekTo := some (max 0 (min seconds p.duration)) }

/-- `MIDIPlayer.set_volume` (lines 180–182): store `max(0, min(1, v))` as the
gain. -/
def set_volume (p : Player) (v : ℚ) : Player :=
  { p with volume := max 0 (min 1 v) }

/-- `MIDIPlayer.skip` (lines 184–187): set the stop flag and release the
pause gate; the transport state is NOT changed. -/
def skip (p : Player) : Player :=
  { p with stopFlag := true, pauseEvt := true }

/-- Step 1 of `MIDIPlayer._flatten`: per-track running sum converting
delta-tick messages to absolute-tick messages (`abs_tick += msg.time`). -/
def toAbsTicks : ℕ → List (ℕ × Msg) → List (ℕ × Msg)
  | _, [] => []
  | acc, (dt, m) :: rest => (acc + dt, m) :: toAbsTicks (acc + dt) rest

/-- The sort key used by `merged.sort(key=lambda x: x[0])`: comparison of
absolute ticks. -/
def tickLE (a b : ℕ × Msg) : Bool :=
  a.1 ≤ b.1

/-- Steps 1–2 of `MIDIPlayer._flatten` (lines 204–213): append every track's
absolute-tick messages in track order, then stable-sort by absolute tick
(Python's `list.sort` is stable; modelled by `List.mergeSort`). -/
def mergeTracks (tracks : List (List (ℕ × Msg))) : List (ℕ × Msg) :=
  ((tracks.map (toAbsTicks 0)).flatten).mergeSort tickLE

/-- The running state of the tick→seconds walk in `MIDIPlayer._flatten`
(step 3): the current tempo in µs/beat, the tick of the previous entry, and
the accumulated elapsed microseconds. -/
structure WalkState where
  tempo : ℕ
  lastTick : ℕ
  elapsedUs : ℚ
deriving DecidableEq

/-- One iteration of the step-3 loop of `MIDIPlayer._flatten`, state part:
advance `elapsed_us` by `tick_delta * (tempo / ticks_per_beat)` (computed
with the tempo in force BEFORE this entry), set `last_tick`, and update the
tempo if the entry is a `set_tempo` meta event. -/
def stepState (tpb : ℕ) (st : WalkState) (e : ℕ × Msg) : WalkState :=
  { tempo :=
      match e.2 with
      | .setTempo t => t
      | _ => st.tempo
    lastTick := e.1
    elapsedUs := st.elapsedUs + ((e.1 : ℚ) - (st.lastTick : ℚ)) * ((st.tempo : ℚ) / (tpb : ℚ)) }

/-- Step 3 of `MIDIPlayer._flatten` (lines 215–242): walk the merged list,
threading the `WalkState`; meta events and messages with empty byte
encodings are dropped, every other message is emitted with its absolute time
`elapsed_us / 1_000_000` in seconds. -/
def flattenWalk (tpb : ℕ) : WalkState → List (ℕ × Msg) → List (ℚ × List ℕ)
  | _, [] => []
  | st, e :: rest =>
    let st' := stepState tpb st e
    match e.2 with
    | .voice raw =>
      if raw = [] then flattenWalk tpb st' rest
      else (st'.elapsedUs / 1000000, raw) :: flattenWalk tpb st' rest
    | _ => flattenWalk tpb st' rest

/-- Initial walk state of `MIDIPlayer._flatten`: tempo 500 000 µs/beat
(120 BPM default), last tick 0, elapsed 0. -/
def initState : WalkState :=
  ⟨500000, 0, 0⟩

/-- `MIDIPlayer._flatten` (lines 191–242): merge all tracks and convert to
`(absolute_time_seconds, raw_bytes)` pairs. -/
def flatten (tpb : ℕ) (tracks : List (List (ℕ × Msg))) : List (ℚ × List ℕ) :=
  flattenWalk tpb initState (mergeTracks tracks)

/-- `messages[-1][0] if messages else 0.0` in `MIDIPlayer.load` (line 139). -/
def durationOf (msgs : List (ℚ × List ℕ)) : ℚ :=
  match msgs.getLast? with
  | some m => m.1
  | none => 0

/-- `MIDIPlayer.load` (lines 132–141).  The parse (`mido.MidiFile(path)`) and
the flattening run BEFORE the lock is taken and any field is mutated, so a
parse failure propagates with the player unmodified.  The parsed file is a
ticks-per-beat constant together with the track list, or a parse error. -/
def load (p : Player) (parsed : Except LoadError (ℕ × List (List (ℕ × Msg)))) :
    Player × Except LoadError ℚ :=
  match parsed with
  | .error e => (p, .error e)
  | .ok (tpb, tracks) =>
    let messages := flatten tpb tracks
    let dur := durationOf messages
    ({ p with messages := messages, duration := dur, pos := 0 }, .ok dur)

/-- `MIDIPlayer._find_index` (lines 326–330): index of the first message
whose time is `≥ pos`, or the length of the list when there is none. -/
def find_index : List (ℚ × List ℕ) → ℚ → ℕ
  | [], _ => 0
  | (t, _) :: rest, pos => if pos ≤ t then 0 else find_index rest pos + 1

/-- An external control call observed by the pacing loop while it runs:
`stop()` (sets the stop flag AND moves the state to `STOPPED`) or `skip()`
(sets only the stop flag, leaving the state `PLAYING`). -/
inductive Sig
  | stop
  | skip
deriving DecidableEq

/-- Whether the stop flag is visible at the loop check point for event index
`i`, given that the signal (if any) was delivered just before the check for
index `j`: the flag is sticky, so it is visible at every check from `j` on. -/
def flagVisible : Option (ℕ × Sig) → ℕ → Bool
  | some (j, _), i => j ≤ i
  | none, _ => false

/-- The event indices actually sent by the `for` loop of `MIDIPlayer._run`
(lines 252–315): each iteration first checks the stop flag and breaks if it
is set, otherwise (after the timed wait, which does not affect WHICH events
are sent) sends the event at that index. -/
def loopEmit (sig : Option (ℕ × Sig)) : List ℕ → List ℕ
  | [] => []
  | i :: rest => if flagVisible sig i then [] else i :: loopEmit sig rest

/-- The transport state found by the epilogue of `MIDIPlayer._run`
(line 319): `stop()` moved it to `STOPPED` at delivery time; `skip()` and
natural exhaustion leave it `PLAYING`. -/
def stateAtEnd : Option (ℕ × Sig) → PState
  | some (_, .stop) => .stopped
  | _ => .playing

/-- Observable outcome of one `MIDIPlayer._run` invocation. -/
structure RunResult where
  emitted : List ℕ
  finishedCalls : ℕ
  finalState : PState
  finalPos : ℚ
deriving DecidableEq

/-- Model of `MIDIPlayer._run` (lines 244–324) for a loaded sequence of `n`
messages, a starting index, and at most one external `stop()`/`skip()`
delivered before the check for index `j` (pauses, seeks and wall-clock
waiting are orthogonal to which events are sent and whether `on_finished`
fires, and are left out).  The epilogue (lines 317–324) records
`was_playing = (state == PLAYING)`, forces the state to `STOPPED`, resets
the position to 0 and invokes `on_finished` once iff `was_playing`. -/
def runModel (n startIdx : ℕ) (sig : Option (ℕ × Sig)) : RunResult :=
  { emitted := loopEmit sig (List.range' startIdx (n - startIdx))
    finishedCalls := if stateAtEnd sig = .playing then 1 else 0
    finalState := .stopped
    finalPos := 0 }

/-- A concrete player with an active (PLAYING) pacing loop, used as input for
claims about control calls during playback. -/
def playingPlayer : Player :=
  { state := .playing, stopFlag := false, pauseEvt := true,
    messages := [(0, [144, 60, 64])], duration := 0, pos := 0,
    seekTo := none, volume := 1 }

/-- A concrete idle player with a two-event loaded sequence. -/
def samplePlayer : Player :=
  { state := .stopped, stopFlag := false, pauseEvt := true,
    messages := [(0, [144, 60, 64]), (1, [128, 60, 0])], duration := 2,
    pos := 0, seekTo := none, volume := 1 }

/-- The `for i in range(idx, len(messages))` loop of `MIDIPlayer._run`
(lines 252–315) under an optional pending seek request `(k, t)` — visible
from the seek check (lines 257–260) of the iteration with range value `k`
on — and no stop/pause activity, returning the messages sent in order.  The
iteration values are the range computed once at loop entry; reassigning `i`
inside a Python `for` loop (lines 263–264) redirects only the CURRENT
iteration, the next iteration resumes from the next value of the range
iterator.  A consumed seek therefore only changes which message line 270
reads in its own iteration (`messages[i]` with the reassigned `i`), or
breaks the loop when the re-resolved index is past the end (lines 267–268).
The timed wait is assumed to end via `delta <= 0` with no mid-wait seek
delivery (the mid-wait path, lines 281–290, sends the stale pre-seek `raw`
and leaks as well). -/
def seekLoopEmit (messages : List (ℚ × List ℕ)) :
    Option (ℕ × ℚ) → List ℕ → List (ℚ × List ℕ)
  | none, i :: rest => messages.getD i (0, []) :: seekLoopEmit messages none rest
  | some (k, t), i :: rest =>
    if k ≤ i then
      if messages.length ≤ find_index messages t then []
      else messages.getD (find_index messages t) (0, []) :: seekLoopEmit messages none rest
    else
      messages.getD i (0, []) :: seekLoopEmit messages (some (k, t)) rest
  | _, [] => []

/-- Emission of one `MIDIPlayer._run` invocation for a loaded `messages`
list started at `startIdx` (`for i in range(idx, len(messages))`, line 252)
under a single pending seek request. -/
def runWithSeek (messages : List (ℚ × List ℕ)) (startIdx : ℕ)
    (seekReq : Option (ℕ × ℚ)) : List (ℚ × List ℕ) :=
  seekLoopEmit messages seekReq (List.range' startIdx (messages.length - startIdx))

/-- Three note-on events at 0 s, 1 s and 2 s. -/
def threeEvents : List (ℚ × List ℕ) :=
  [(0, [144, 60, 64]), (1, [144, 62, 64]), (2, [144, 64, 64])]

/-- With no external signal the loop sends every remaining event. -/
theorem loopEmit_none (l : List ℕ) : loopEmit none l = l := by
  induction l with
  | nil => rfl
  | cons i rest ih => simp [loopEmit, flagVisible, ih]

/-- Claim C9: from any transport state, `stop()` twice produces the same
player state as `stop()` once, and `pause()` while already paused produces
the same player state as a single `pause()`. -/
theorem C9_stop_pause_idempotent (p : Player) :
    stop (stop p) = stop p ∧ pause (pause p) = pause p := by
  refine ⟨rfl, ?_⟩
  by_cases h : p.state = PState.playing
  · simp [pause, h]
  · simp [pause, h]

/-- Claim C10: `set_volume` accepts any rational input and stores it clamped
into `[0,1]`, so the gain invariant `0 ≤ gain ≤ 1` holds after every call;
no other field changes. -/
theorem C10_set_volume_clamp (p : Player) (v : ℚ) :
    set_volume p v = { p with volume := max 0 (min 1 v) }
    ∧ 0 ≤ (set_volume p v).volume
    ∧ (set_volume p v).volume ≤ 1
    ∧ (set_volume p v).state = p.state
    ∧ (set_volume p v).messages = p.messages
    ∧ (set_volume p v).pos = p.pos
    ∧ (set_volume p v).duration = p.duration := by
  refine ⟨rfl, le_max_left 0 _, ?_, rfl, rfl, rfl, rfl⟩
  exact max_le zero_le_one (min_le_left 1 v)

/-- Claim C7: `seek(t)` is total, records `t` clamped into `[0, duration]`
as the pending seek target (0 for negative `t`, the duration when `t`
exceeds it, `t` itself when in range), and changes nothing else. -/
theorem C7_seek_clamp (p : Player) (t : ℚ) (hd : 0 ≤ p.duration) :
    seek p t = { p with seekTo := some (max 0 (min t p.duration)) }
    ∧ 0 ≤ max 0 (min t p.duration)
    ∧ max 0 (min t p.duration) ≤ p.duration
    ∧ (t < 0 → (seek p t).seekTo = some 0)
    ∧ (p.duration < t → (seek p t).seekTo = some p.duration)
    ∧ (0 ≤ t → t ≤ p.duration → (seek p t).seekTo = some t)
    ∧ (seek p t).state = p.state
    ∧ (seek p t).stopFlag = p.stopFlag
    ∧ (seek p t).pauseEvt = p.pauseEvt
    ∧ (seek p t).messages = p.messages
    ∧ (seek p t).duration = p.duration
    ∧ (seek p t).pos = p.pos
    ∧ (seek p t).volume = p.volume := by
  refine ⟨rfl, le_max_left 0 _, max_le hd (min_le_right t p.duration),
    ?_, ?_, ?_, rfl, rfl, rfl, rfl, rfl, rfl, rfl⟩
  · intro ht
    have h1 : min t p.duration = t := min_eq_left (le_trans ht.le hd)
    simp [seek, h1, max_eq_left ht.le]
  · intro ht
    have h1 : min t p.duration = p.duration := min_eq_right ht.le
    simp [seek, h1, max_eq_right hd]
  · intro h0 h1
    simp [seek, min_eq_left h1, max_eq_right h0]

/-- Witness for C7 at a concrete player and target. -/
theorem C7_seek_clamp_witness :
    (0 : ℚ) ≤ samplePlayer.duration
    ∧ 0 ≤ max 0 (min 5 samplePlayer.duration) :=
  ⟨by norm_num [samplePlayer], (C7_seek_clamp samplePlayer 5 (by norm_num [samplePlayer])).2.1⟩

/-- Claim C8: a parse failure makes `load` return the error with the player
completely unmodified — the previous sequence, duration and position are
intact (the parse and the flattening run before any field is written). -/
theorem C8_load_failure_atomic (p : Player) (e : LoadError) :
    load p (.error e) = (p, .error e) := rfl

/-- Counterexample to claim C4: `MIDIPlayer.load` does NOT stop an active
playback.  Loading into a player whose state is `PLAYING` with a clear stop
flag leaves the state `PLAYING` and the stop flag clear — the pacing loop is
never signalled (the GUI caller compensates by calling `stop()` itself
before `load`). -/
theorem C4_load_counterexample :
    playingPlayer.state = PState.playing
    ∧ playingPlayer.stopFlag = false
    ∧ (load playingPlayer (.ok (480, [[(0, Msg.voice [144, 60, 64])]]))).1.state = PState.playing
    ∧ (load playingPlayer (.ok (480, [[(0, Msg.voice [144, 60, 64])]]))).1.stopFlag = false :=
  ⟨rfl, rfl, rfl, rfl⟩

/-- Claim C4 as amended: `load` is legal in any transport state; it replaces
the loaded sequence, resets the position to 0, leaves every other field —
including the transport state and the stop signal — unchanged (it does not
stop an active playback), and returns the new duration, which is the last
flattened event's time, or 0 for an empty sequence. -/
theorem C4_load_amended (p : Player) (tpb : ℕ) (tracks : List (List (ℕ × Msg))) :
    (load p (.ok (tpb, tracks))).1.state = p.state
    ∧ (load p (.ok (tpb, tracks))).1.stopFlag = p.stopFlag
    ∧ (load p (.ok (tpb, tracks))).1.pauseEvt = p.pauseEvt
    ∧ (load p (.ok (tpb, tracks))).1.seekTo = p.seekTo
    ∧ (load p (.ok (tpb, tracks))).1.volume = p.volume
    ∧ (load p (.ok (tpb, tracks))).1.pos = 0
    ∧ (load p (.ok (tpb, tracks))).1.messages = flatten tpb tracks
    ∧ (load p (.ok (tpb, tracks))).1.duration = durationOf (flatten tpb tracks)
    ∧ (load p (.ok (tpb, tracks))).2 = .ok (durationOf (flatten tpb tracks))
    ∧ (flatten tpb tracks = [] → durationOf (flatten tpb tracks) = 0)
    ∧ (∀ (init : List (ℚ × List ℕ)) (e : ℚ × List ℕ),
        flatten tpb tracks = init ++ [e] → durationOf (flatten tpb tracks) = e.1) := by
  refine ⟨rfl, rfl, rfl, rfl, rfl, rfl, rfl, rfl, rfl, ?_, ?_⟩
  · intro h
    simp [durationOf, h]
  · intro init e h
    simp [durationOf, h, List.getLast?_concat]

/-- Counterexample to claim C5: the source truncates with Python `int(...)`
rather than rounding to the nearest integer.  For gain 9/10 and a
channel-volume value byte 1, the code yields value `int(0.9) = 0` while the
claim's `round(0.9) = 1`; the two transforms disagree on this input. -/
theorem C5_volume_counterexample :
    apply_volume (9/10) [176, 7, 1] = [176, 7, 0]
    ∧ apply_volume_specRound (9/10) [176, 7, 1] = [176, 7, 1]
    ∧ apply_volume (9/10) [176, 7, 1] ≠ apply_volume_specRound (9/10) [176, 7, 1] := by
  have h1 : apply_volume (9/10) [176, 7, 1] = [176, 7, 0] := by
    simp only [apply_volume, pyint]
    norm_num
    decide
  have h2 : apply_volume_specRound (9/10) [176, 7, 1] = [176, 7, 1] := by
    simp only [apply_volume_specRound]
    norm_num [round_eq]
  refine ⟨h1, h2, ?_⟩
  rw [h1, h2]
  simp

/-- Claim C5 as amended: for a byte sequence of length ≥ 3 whose status
nibble is control-change (`0xB0`) and whose controller number is 7 (channel
volume), the value byte is replaced by `int(original_value * gain)` —
truncation toward zero, not `round` — clamped to `[0,127]`; for gain 1/2 and
value 127 the result is 63 (within the claim's "63 or 64"); every other byte
sequence is returned unchanged. -/
theorem C5_volume_amended (g : ℚ) (b0 b2 : ℕ) (rest : List ℕ)
    (h : b0 &&& 0xF0 = 0xB0) :
    apply_volume g (b0 :: 7 :: b2 :: rest)
      = [b0, 7, (max 0 (min 127 (pyint ((b2 : ℚ) * g)))).toNat]
    ∧ apply_volume (1/2) [0xB0, 7, 127] = [0xB0, 7, 63]
    ∧ (max 0 (min 127 (pyint ((b2 : ℚ) * g)))).toNat ≤ 127
    ∧ (∀ (g' : ℚ) (raw : List ℕ), raw.length < 3 → apply_volume g' raw = raw)
    ∧ (∀ (g' : ℚ) (c0 c1 c2 : ℕ) (rest' : List ℕ), ¬(c0 &&& 0xF0 = 0xB0 ∧ c1 = 7) →
        apply_volume g' (c0 :: c1 :: c2 :: rest') = c0 :: c1 :: c2 :: rest') := by
  refine ⟨?_, ?_, ?_, ?_, ?_⟩
  · simp [apply_volume, h]
  · simp only [apply_volume, pyint]
    norm_num
    rw [if_pos (by decide : 176 &&& 240 = 176)]
    decide
  · rw [Int.toNat_le]
    exact le_trans (max_le (by norm_num) (min_le_left _ _)) (by norm_num)
  · intro g' raw hlen
    match raw with
    | [] => rfl
    | [a] => rfl
    | [a, b] => rfl
    | a :: b :: c :: t => simp at hlen; omega
  · intro g' c0 c1 c2 rest' hne
    have hb : (c0 &&& 0xF0 == 0xB0 && c1 == 7) = false := by
      rw [Bool.and_eq_false_iff]
      by_cases hc : c0 &&& 0xF0 = 0xB0
      · right
        simp [beq_eq_false_iff_ne]
        intro h7
        exact hne ⟨hc, h7⟩
      · left
        simp [beq_eq_false_iff_ne, hc]
    simp [apply_volume, hb]

/-- Witness for C5's amended theorem at gain 1/2 on the concrete
channel-volume message `[0xB0, 7, 127]`. -/
theorem C5_volume_amended_witness :
    (176 &&& 0xF0 = 0xB0) ∧ apply_volume (1/2) [0xB0, 7, 127] = [0xB0, 7, 63] :=
  ⟨by decide, (C5_volume_amended (1/2) 176 127 [] (by decide)).2.1⟩

/-- Counterexample to claim C3: `skip()` sets the stop flag but leaves the
transport state `PLAYING`, so when the pacing loop breaks out because of the
skip, the epilogue still sees `was_playing = True` and invokes `on_finished`
— the loop here terminated at the very first check because of an external
`skip()` (no event was emitted), yet `finishedCalls = 1`. -/
theorem C3_finished_counterexample :
    runModel 2 0 (some (0, Sig.skip))
      = { emitted := [], finishedCalls := 1, finalState := .stopped, finalPos := 0 } := rfl

/-- Claim C3 as amended: `on_finished` is invoked exactly once when the
pacing loop exhausts the event sequence while the transport state is still
`Playing`, and never when the loop terminates because of an external
`stop()` (which moves the state to `Stopped` before the epilogue); an
external `skip()` leaves the state `Playing`, so a loop terminated by
`skip()` also invokes `on_finished` exactly once (`skip` is documented as
"finish current track"). -/
theorem C3_finished_amended (n s j : ℕ) :
    (runModel n s none).finishedCalls = 1
    ∧ (runModel n s none).emitted = List.range' s (n - s)
    ∧ (runModel n s none).finalState = .stopped
    ∧ (runModel n s none).finalPos = 0
    ∧ (runModel n s (some (j, Sig.stop))).finishedCalls = 0
    ∧ (runModel n s (some (j, Sig.skip))).finishedCalls = 1 := by
  refine ⟨rfl, ?_, rfl, rfl, rfl, rfl⟩
  simp [runModel, loopEmit_none]

/-- Output of step 3 of `_flatten` on a concatenation: the walk over
`xs ++ ys` is the walk over `xs` followed by the walk over `ys` started from
the state accumulated over `xs`.  In particular the times emitted for `xs`
do not depend on anything in `ys` — a later tempo change is never applied
retroactively. -/
theorem flattenWalk_append (tpb : ℕ) (st : WalkState) (xs ys : List (ℕ × Msg)) :
    flattenWalk tpb st (xs ++ ys)
      = flattenWalk tpb st xs ++ flattenWalk tpb (xs.foldl (stepState tpb) st) ys := by
  induction xs generalizing st with
  | nil => simp [flattenWalk]
  | cons e rest ih =>
    rcases e with ⟨tick, m⟩
    cases m with
    | setTempo t => simpa [flattenWalk] using ih (stepState tpb st (tick, .setTempo t))
    | metaOther => simpa [flattenWalk] using ih (stepState tpb st (tick, .metaOther))
    | voice raw =>
      by_cases hr : raw = [] <;> simp [flattenWalk, hr, ih]

/-- Evaluation of `_flatten` on the tempo test file of the spec: one track,
480 ticks per beat, a tempo change to 1 000 000 µs/beat at tick 480, a
note-on at tick 960.  The note-on time is 3/2 seconds: 480 ticks at the
default 500 000 µs/beat are 0.5 s, the next 480 ticks at 1 000 000 µs/beat
are 1 s. -/
theorem flatten_tempo_example :
    flatten 480 [[(480, Msg.setTempo 1000000), (480, Msg.voice [144, 60, 64])]]
      = [((3 : ℚ)/2, [144, 60, 64])] := by
  have h : mergeTracks [[(480, Msg.setTempo 1000000), (480, Msg.voice [144, 60, 64])]]
      = [(480, Msg.setTempo 1000000), (960, Msg.voice [144, 60, 64])] := by
    unfold mergeTracks
    exact List.mergeSort_of_sorted (by decide)
  unfold flatten
  rw [h]
  simp [flattenWalk, stepState, initState]
  norm_num

/-- Counterexample to claim C1: on the claim's own input (ticks-per-beat
480, tempo change from 500 000 to 1 000 000 µs/beat at tick 480, note-on at
tick 960) the flattened time of the note-on is 3/2 s, not 2 s: 480 ticks at
500 000 µs/beat take 0.5 s, not the 1 s the spec computed. -/
theorem C1_tempo_counterexample :
    flatten 480 [[(480, Msg.setTempo 1000000), (480, Msg.voice [144, 60, 64])]]
      = [((3 : ℚ)/2, [144, 60, 64])]
    ∧ ((3 : ℚ)/2) ≠ 2 :=
  ⟨flatten_tempo_example, by norm_num⟩

/-- Claim C1 as amended: on the claim's input the flattened time of the
note-on is exactly 1.5 seconds (0.5 s at the old tempo to reach tick 480,
plus 1 s at the new tempo for the next 480 ticks); in general a tempo
change takes effect exactly for the tick gaps after the event — the
elapsed-time increment crossing the tempo event itself still uses the old
tempo, the new tempo is in force afterwards, and the output for any walk
particle `xs` is independent of later entries `ys`, so the running tempo is
never retroactively applied to already-accumulated elapsed time. -/
theorem C1_tempo_amended (tpb : ℕ) (st : WalkState) (xs ys : List (ℕ × Msg)) :
    flattenWalk tpb st (xs ++ ys)
      = flattenWalk tpb st xs ++ flattenWalk tpb (xs.foldl (stepState tpb) st) ys
    ∧ (∀ (tick newTempo : ℕ),
        (stepState tpb st (tick, Msg.setTempo newTempo)).elapsedUs
          = st.elapsedUs + ((tick : ℚ) - (st.lastTick : ℚ)) * ((st.tempo : ℚ) / (tpb : ℚ))
        ∧ (stepState tpb st (tick, Msg.setTempo newTempo)).tempo = newTempo)
    ∧ flatten 480 [[(480, Msg.setTempo 1000000), (480, Msg.voice [144, 60, 64])]]
        = [((3 : ℚ)/2, [144, 60, 64])] :=
  ⟨flattenWalk_append tpb st xs ys, fun _ _ => ⟨rfl, rfl⟩, flatten_tempo_example⟩

/-- One walk step never decreases the elapsed-microseconds accumulator,
provided ticks do not go backwards. -/
theorem stepState_elapsed_le (tpb : ℕ) (st : WalkState) (e : ℕ × Msg)
    (h : st.lastTick ≤ e.1) : st.elapsedUs ≤ (stepState tpb st e).elapsedUs := by
  have h1 : (0 : ℚ) ≤ (e.1 : ℚ) - (st.lastTick : ℚ) := by
    rw [sub_nonneg]
    exact_mod_cast h
  have h2 : (0 : ℚ) ≤ (st.tempo : ℚ) / (tpb : ℚ) := by positivity
  have h3 := mul_nonneg h1 h2
  simp only [stepState]
  linarith

/-- The walk over a tick-sorted merged list emits non-decreasing times, all
of them at least the accumulated time of the starting state. -/
theorem flattenWalk_sorted (tpb : ℕ) (l : List (ℕ × Msg)) :
    ∀ st : WalkState,
      (∀ e ∈ l, st.lastTick ≤ e.1) →
      l.Pairwise (fun a b => a.1 ≤ b.1) →
      (flattenWalk tpb st l).Pairwise (fun a b => a.1 ≤ b.1)
      ∧ ∀ x ∈ flattenWalk tpb st l, st.elapsedUs / 1000000 ≤ x.1 := by
  induction l with
  | nil =>
    intro st _ _
    simp [flattenWalk]
  | cons e rest ih =>
    intro st hlb hpw
    rcases e with ⟨tick, m⟩
    rw [List.pairwise_cons] at hpw
    obtain ⟨hpe, hpr⟩ := hpw
    have hse : st.lastTick ≤ tick := hlb (tick, m) (List.mem_cons_self _ _)
    have hlb' : ∀ x ∈ rest, (stepState tpb st (tick, m)).lastTick ≤ x.1 := by
      intro x hx
      simpa [stepState] using hpe x hx
    have ihr := ih (stepState tpb st (tick, m)) hlb' hpr
    have helap : st.elapsedUs ≤ (stepState tpb st (tick, m)).elapsedUs :=
      stepState_elapsed_le tpb st (tick, m) hse
    have hdiv : st.elapsedUs / 1000000 ≤ (stepState tpb st (tick, m)).elapsedUs / 1000000 := by
      apply div_le_div_of_nonneg_right helap
      norm_num
    cases m with
    | setTempo tmp =>
      refine ⟨by simpa [flattenWalk] using ihr.1, ?_⟩
      intro x hx
      rw [show flattenWalk tpb st ((tick, Msg.setTempo tmp) :: rest)
          = flattenWalk tpb (stepState tpb st (tick, Msg.setTempo tmp)) rest
        from by simp [flattenWalk]] at hx
      exact le_trans hdiv (ihr.2 x hx)
    | metaOther =>
      refine ⟨by simpa [flattenWalk] using ihr.1, ?_⟩
      intro x hx
      rw [show flattenWalk tpb st ((tick, Msg.metaOther) :: rest)
          = flattenWalk tpb (stepState tpb st (tick, Msg.metaOther)) rest
        from by simp [flattenWalk]] at hx
      exact le_trans hdiv (ihr.2 x hx)
    | voice raw =>
      by_cases hr : raw = []
      · refine ⟨by simpa [flattenWalk, hr] using ihr.1, ?_⟩
        intro x hx
        rw [show flattenWalk tpb st ((tick, Msg.voice raw) :: rest)
            = flattenWalk tpb (stepState tpb st (tick, Msg.voice raw)) rest
          from by simp [flattenWalk, hr]] at hx
        exact le_trans hdiv (ihr.2 x hx)
      · have hw : flattenWalk tpb st ((tick, Msg.voice raw) :: rest)
            = ((stepState tpb st (tick, Msg.voice raw)).elapsedUs / 1000000, raw)
              :: flattenWalk tpb (stepState tpb st (tick, Msg.voice raw)) rest := by
          simp [flattenWalk, hr]
        constructor
        · rw [hw]
          refine List.pairwise_cons.mpr ⟨?_, ihr.1⟩
          intro y hy
          exact ihr.2 y hy
        · intro x hx
          rw [hw] at hx
          rcases List.mem_cons.mp hx with rfl | hx'
          · exact hdiv
          · exact le_trans hdiv (ihr.2 x hx')

/-- The tick comparison is transitive. -/
theorem tickLE_trans : ∀ a b c : ℕ × Msg, tickLE a b → tickLE b c → tickLE a c := by
  intro a b c hab hbc
  simp only [tickLE, decide_eq_true_eq] at *
  omega

/-- The tick comparison is total. -/
theorem tickLE_total : ∀ a b : ℕ × Msg, tickLE a b || tickLE b a := by
  intro a b
  simp only [tickLE, Bool.or_eq_true, decide_eq_true_eq]
  omega

/-- The merged list produced by steps 1–2 of `_flatten` is sorted by
absolute tick. -/
theorem mergeTracks_pairwise (tracks : List (List (ℕ × Msg))) :
    (mergeTracks tracks).Pairwise (fun a b => a.1 ≤ b.1) := by
  have h := List.sorted_mergeSort tickLE_trans tickLE_total
      ((tracks.map (toAbsTicks 0)).flatten)
  unfold mergeTracks
  refine h.imp ?_
  intro a b hab
  simpa [tickLE] using hab

/-- Stability of the merge: for every tick value, the merged list restricted
to that tick equals the concatenated input restricted to that tick — exact
tick ties keep the presentation order (earlier tracks first, then intra-track
order). -/
theorem mergeTracks_stable (tracks : List (List (ℕ × Msg))) (t : ℕ) :
    (mergeTracks tracks).filter (fun e => e.1 == t)
      = ((tracks.map (toAbsTicks 0)).flatten).filter (fun e => e.1 == t) := by
  have hc : (((tracks.map (toAbsTicks 0)).flatten).filter (fun e => e.1 == t)).Pairwise
      (fun a b => tickLE a b = true) := by
    apply List.pairwise_of_forall_mem_list
    intro a ha b hb
    have ha' := (List.mem_filter.mp ha).2
    have hb' := (List.mem_filter.mp hb).2
    simp only [beq_iff_eq] at ha' hb'
    simp [tickLE, ha', hb']
  have hsub : List.Sublist (((tracks.map (toAbsTicks 0)).flatten).filter (fun e => e.1 == t))
      (((tracks.map (toAbsTicks 0)).flatten).mergeSort tickLE) :=
    List.sublist_mergeSort tickLE_trans tickLE_total hc (List.filter_sublist _)
  have h2 := hsub.filter (fun e => e.1 == t)
  rw [List.filter_filter] at h2
  have h3 : (((tracks.map (toAbsTicks 0)).flatten).filter fun a => (a.1 == t) && (a.1 == t))
      = ((tracks.map (toAbsTicks 0)).flatten).filter (fun e => e.1 == t) := by
    simp
  rw [h3] at h2
  have hperm : List.Perm
      ((((tracks.map (toAbsTicks 0)).flatten).mergeSort tickLE).filter (fun e => e.1 == t))
      (((tracks.map (toAbsTicks 0)).flatten).filter (fun e => e.1 == t)) :=
    (List.mergeSort_perm _ tickLE).filter _
  unfold mergeTracks
  exact (h2.eq_of_length hperm.length_eq.symm).symm

/-- Claim C2: for nonnegative delta ticks (built into the `ℕ` model) and any
positive ticks-per-beat, the flattened output is non-decreasing in
`time_seconds`, exact tick ties keep the stable merge order (earlier tracks
first, then intra-track order), and flattening the same input twice gives
the same output. -/
theorem C2_flatten_invariants (tpb : ℕ) (tracks : List (List (ℕ × Msg))) (h : 0 < tpb) :
    (flatten tpb tracks).Pairwise (fun a b => a.1 ≤ b.1)
    ∧ (∀ t : ℕ, (mergeTracks tracks).filter (fun e => e.1 == t)
        = ((tracks.map (toAbsTicks 0)).flatten).filter (fun e => e.1 == t))
    ∧ flatten tpb tracks = flatten tpb tracks := by
  refine ⟨?_, fun t => mergeTracks_stable tracks t, rfl⟩
  unfold flatten
  exact (flattenWalk_sorted tpb (mergeTracks tracks) initState
    (fun e _ => Nat.zero_le e.1) (mergeTracks_pairwise tracks)).1

/-- Witness for C2 at ticks-per-beat 480 on a two-track file. -/
theorem C2_flatten_invariants_witness :
    0 < 480
    ∧ (flatten 480 [[(1, Msg.voice [144, 60, 64])], [(1, Msg.voice [145, 61, 65])]]).Pairwise
        (fun a b => a.1 ≤ b.1) :=
  ⟨by decide,
   (C2_flatten_invariants 480 [[(1, Msg.voice [144, 60, 64])], [(1, Msg.voice [145, 61, 65])]]
      (by decide)).1⟩

/-- `find_index` never exceeds the sequence length (and equals it when no
event has time `≥ pos`). -/
theorem find_index_le_length (msgs : List (ℚ × List ℕ)) (t : ℚ) :
    find_index msgs t ≤ msgs.length := by
  induction msgs with
  | nil => simp [find_index]
  | cons m rest ih =>
    rcases m with ⟨tm, bm⟩
    by_cases h : t ≤ tm <;> simp [find_index, h] <;> omega

/-- Every event strictly before the resolved index has time `< t`. -/
theorem find_index_take_lt (msgs : List (ℚ × List ℕ)) (t : ℚ) :
    ∀ x ∈ msgs.take (find_index msgs t), x.1 < t := by
  induction msgs with
  | nil => simp
  | cons m rest ih =>
    rcases m with ⟨tm, bm⟩
    by_cases h : t ≤ tm
    · simp [find_index, h]
    · rw [find_index, if_neg h]
      intro x hx
      rcases List.mem_cons.mp (by simpa using hx) with rfl | hx'
      · exact lt_of_not_le h
      · exact ih x hx'

/-- The event at the resolved index (when it exists) has time `≥ t`. -/
theorem find_index_head_ge (msgs : List (ℚ × List ℕ)) (t : ℚ) :
    ∀ x ∈ (msgs.drop (find_index msgs t)).head?, t ≤ x.1 := by
  induction msgs with
  | nil => simp
  | cons m rest ih =>
    rcases m with ⟨tm, bm⟩
    by_cases h : t ≤ tm
    · simp [find_index, h]
    · rw [find_index, if_neg h]
      simpa using ih

/-- For a sorted sequence, every event from the resolved index on has time
`≥ t`. -/
theorem find_index_drop_ge (msgs : List (ℚ × List ℕ)) (t : ℚ)
    (hs : msgs.Pairwise (fun a b => a.1 ≤ b.1)) :
    ∀ x ∈ msgs.drop (find_index msgs t), t ≤ x.1 := by
  induction msgs with
  | nil => simp
  | cons m rest ih =>
    rcases m with ⟨tm, bm⟩
    rw [List.pairwise_cons] at hs
    by_cases h : t ≤ tm
    · rw [find_index, if_pos h, List.drop_zero]
      intro x hx
      rcases List.mem_cons.mp hx with rfl | hx'
      · exact h
      · exact le_trans h (hs.1 x hx')
    · rw [find_index, if_neg h]
      simpa using ih hs.2

/-- Claim C6, evaluated at the failing input: events at 0 s, 1 s and 2 s,
playback from index 0, a `seek(2.0)` consumed at the seek check of the
first loop iteration.  `_find_index` itself is correct — it resolves index
2, the first event with time `≥ 2` — but the loop emits the events at times
2, 1, 2: the `i = idx` reassignment (lines 263–264) does not redirect the
`for i in range(idx, len(messages))` iteration, so the next iteration
resumes from the stale range value and the event at time 1 < 2 is emitted
AFTER the seek, contradicting "no event with time_seconds < t is emitted".
The code's own `idx`/`i = idx` bookkeeping shows continue-from-the-resolved-
index is the intent; the reassignment is a slip of Python `for` semantics. -/
theorem C6_seek_leak :
    find_index threeEvents 2 = 2
    ∧ runWithSeek threeEvents 0 (some (0, 2))
        = [(2, [144, 64, 64]), (1, [144, 62, 64]), (2, [144, 64, 64])]
    ∧ (1, [144, 62, 64]) ∈ (runWithSeek threeEvents 0 (some (0, 2))).tail
    ∧ ((1 : ℚ)) < 2 :=
  ⟨by decide, by decide, by decide, by norm_num⟩

end Cynthia
